import Mathlib

/-!
Shallow embedding of `src/parse_mc.py` (`WorkingMinecraftReader`), the spatial
block-store reader of the repository: a two-level region/chunk cache over an
external binary decoder (the `anvil` library), a total per-voxel lookup
`get_block`, the batch lookup `get_multiple_blocks`, and the filtering area
scan `scan_area`.

The external decoder is modelled by a record of pure functions returning
`Option`: `none` stands for "the call raised an exception", `some` for a
normal return.  The reader's mutable instance state (`self.world_directory`,
`self.region_cache`, `self.chunk_cache`) is threaded explicitly; every
operation returns its result paired with the updated state.  Two ghost
counters (`region_loads`, `chunk_decodes`) count the collaborator invocations
`anvil.Region.from_file` and `region.get_chunk`; they are observational
instrumentation only and never influence control flow.

Python arithmetic is translated exactly: `x >> 4` is the arithmetic
(sign-extending) shift `Int.shiftRight x 4`, `x & 15` is the two's-complement
`Int.land x 15`, `a // b` is floor division `Int.fdiv a b`, and `a % b` is the
floor remainder `Int.fmod a b`.
-/

namespace MinecraftReader

/-- The external decoder collaborator (the `anvil` library): `from_file`
parses a region file path, `get_chunk` extracts an in-region chunk slot,
`get_block` decodes one voxel of a chunk and returns its identifier string
(`block.id`).  A `none` result models the call raising an exception. -/
structure Collaborator (R C : Type) where
  from_file : String → Option R
  get_chunk : R → Int → Int → Option C
  get_block : C → Int → Int → Int → Option String

/-- The reader's instance state: the region directory and the two caches,
as set up in `__init__`.  `region_loads` and `chunk_decodes` are ghost
counters of collaborator calls (not present in the source; observational
only). -/
structure ReaderState (R C : Type) where
  world_directory : String
  region_cache : List ((Int × Int) × R)
  chunk_cache : List ((Int × Int) × C)
  region_loads : Nat
  chunk_decodes : Nat

/-- A freshly constructed reader: both caches empty. -/
def initState (R C : Type) (dir : String) : ReaderState R C :=
  { world_directory := dir, region_cache := [], chunk_cache := [],
    region_loads := 0, chunk_decodes := 0 }

/-- First-match association-list lookup, modelling Python `dict` access
(keys are unique in every dict the reader builds). -/
def lookup {κ β : Type} [DecidableEq κ] : List (κ × β) → κ → Option β
  | [], _ => none
  | p :: rest, k => if p.1 = k then some p.2 else lookup rest k

/-- Python `dict` assignment `d[k] = v`: overwrite in place if the key is
present, else append at the end (insertion order preserved). -/
def insertD {κ β : Type} [DecidableEq κ] (d : List (κ × β)) (k : κ) (v : β) :
    List (κ × β) :=
  match lookup d k with
  | some _ => d.map (fun p => if p.1 = k then (k, v) else p)
  | none => d ++ [(k, v)]

/-- The chunk coordinate of a world coordinate component: `x >> 4`, Python's
arithmetic (sign-extending) right shift. -/
def chunk_coord (x : Int) : Int := Int.shiftRight x 4

/-- The chunk-local offset of a world coordinate component: `x & 15`,
Python's two's-complement bitwise AND. -/
def block_offset (x : Int) : Int := Int.land x 15

/-- The region file path `os.path.join(self.world_directory, f"r.{region_x}.{region_z}.mca")`. -/
def region_file (dir : String) (region_x region_z : Int) : String :=
  dir ++ "/r." ++ toString region_x ++ "." ++ toString region_z ++ ".mca"

/-- `WorkingMinecraftReader._get_region`: cache hit returns the cached
handle; on a miss, `anvil.Region.from_file` is attempted on the constructed
path — success is cached and returned, any exception is caught and yields
`none` with the cache unchanged. -/
def _get_region {R C : Type} (col : Collaborator R C) (s : ReaderState R C)
    (region_x region_z : Int) : Option R × ReaderState R C :=
  match lookup s.region_cache (region_x, region_z) with
  | some region => (some region, s)
  | none =>
    match col.from_file (region_file s.world_directory region_x region_z) with
    | some region =>
      (some region,
        { s with region_cache := ((region_x, region_z), region) :: s.region_cache,
                 region_loads := s.region_loads + 1 })
    | none => (none, { s with region_loads := s.region_loads + 1 })

/-- `WorkingMinecraftReader._get_chunk`: cache hit returns the cached chunk;
on a miss, the owning region is resolved via `_get_region`
(`region_x = chunk_x // 32`), and on success the in-region slot
`(chunk_x % 32, chunk_z % 32)` is decoded — success is cached and returned,
any exception is caught and yields `none`. -/
def _get_chunk {R C : Type} (col : Collaborator R C) (s : ReaderState R C)
    (chunk_x chunk_z : Int) : Option C × ReaderState R C :=
  match lookup s.chunk_cache (chunk_x, chunk_z) with
  | some chunk => (some chunk, s)
  | none =>
    match _get_region col s (Int.fdiv chunk_x 32) (Int.fdiv chunk_z 32) with
    | (none, s1) => (none, s1)
    | (some region, s1) =>
      match col.get_chunk region (Int.fmod chunk_x 32) (Int.fmod chunk_z 32) with
      | some chunk =>
        (some chunk,
          { s1 with chunk_cache := ((chunk_x, chunk_z), chunk) :: s1.chunk_cache,
                    chunk_decodes := s1.chunk_decodes + 1 })
      | none => (none, { s1 with chunk_decodes := s1.chunk_decodes + 1 })

/-- `WorkingMinecraftReader.get_block`: decompose the coordinate
(`chunk_x = x >> 4`, `block_x = x & 15`), resolve the chunk, and decode the
voxel; an absent chunk or any exception during the per-voxel decode yields
the default `"minecraft:air"`. -/
def get_block {R C : Type} (col : Collaborator R C) (s : ReaderState R C)
    (x y z : Int) : String × ReaderState R C :=
  match _get_chunk col s (chunk_coord x) (chunk_coord z) with
  | (none, s1) => ("minecraft:air", s1)
  | (some chunk, s1) =>
    match col.get_block chunk (block_offset x) y (block_offset z) with
    | some b => (b, s1)
    | none => ("minecraft:air", s1)

/-- One iteration of the `get_multiple_blocks` loop:
`results[(x, y, z)] = self.get_block(x, y, z)`. -/
def multiStep {R C : Type} (col : Collaborator R C)
    (acc : List ((Int × Int × Int) × String) × ReaderState R C)
    (c : Int × Int × Int) :
    List ((Int × Int × Int) × String) × ReaderState R C :=
  let r := get_block col acc.2 c.1 c.2.1 c.2.2
  (insertD acc.1 c r.1, r.2)

/-- `WorkingMinecraftReader.get_multiple_blocks`: look every coordinate up
with `get_block` and store it in the result dict, no filtering. -/
def get_multiple_blocks {R C : Type} (col : Collaborator R C)
    (s : ReaderState R C) (coordinates : List (Int × Int × Int)) :
    List ((Int × Int × Int) × String) × ReaderState R C :=
  coordinates.foldl (multiStep col) ([], s)

/-- The set of air block identifiers filtered out by `scan_area`. -/
def air_blocks : List String :=
  ["minecraft:air", "minecraft:cave_air", "minecraft:void_air",
   "air", "cave_air", "void_air"]

/-- Python `range(a, b + 1)` over integers: the list `a, a+1, ..., b`
(empty when `b < a`). -/
def intRange (a b : Int) : List Int :=
  (List.range (b + 1 - a).toNat).map (fun i : Nat => a + (i : Int))

/-- The voxels visited by `scan_area`, in loop order: outer `x`, then `y`,
then `z`, each from `min` to `max` inclusive. -/
def visitList (x1 y1 z1 x2 y2 z2 : Int) : List (Int × Int × Int) :=
  (intRange (min x1 x2) (max x1 x2)).flatMap (fun x =>
    (intRange (min y1 y2) (max y1 y2)).flatMap (fun y =>
      (intRange (min z1 z2) (max z1 z2)).map (fun z => (x, y, z))))

/-- One iteration of the `scan_area` loop: look the voxel up and keep it
only if its identifier is not any air variant. -/
def scanStep {R C : Type} (col : Collaborator R C)
    (acc : List ((Int × Int × Int) × String) × ReaderState R C)
    (c : Int × Int × Int) :
    List ((Int × Int × Int) × String) × ReaderState R C :=
  let r := get_block col acc.2 c.1 c.2.1 c.2.2
  (if r.1 ∈ air_blocks then acc.1 else insertD acc.1 c r.1, r.2)

/-- `WorkingMinecraftReader.scan_area`: visit every voxel of the normalized
inclusive box, look it up with `get_block`, and keep it iff its identifier
is not one of the `air_blocks`. -/
def scan_area {R C : Type} (col : Collaborator R C) (s : ReaderState R C)
    (x1 y1 z1 x2 y2 z2 : Int) :
    List ((Int × Int × Int) × String) × ReaderState R C :=
  (visitList x1 y1 z1 x2 y2 z2).foldl (scanStep col) ([], s)

/-- The value `_get_region` computes on a cache miss: what the collaborator
returns for the constructed region file path. -/
def pure_region {R C : Type} (col : Collaborator R C) (dir : String)
    (region_x region_z : Int) : Option R :=
  col.from_file (region_file dir region_x region_z)

/-- The value `_get_chunk` computes on a cache miss, as a pure function of
the collaborator. -/
def pure_chunk {R C : Type} (col : Collaborator R C) (dir : String)
    (chunk_x chunk_z : Int) : Option C :=
  match pure_region col dir (Int.fdiv chunk_x 32) (Int.fdiv chunk_z 32) with
  | none => none
  | some region => col.get_chunk region (Int.fmod chunk_x 32) (Int.fmod chunk_z 32)

/-- The value `get_block` computes, as a pure function of the collaborator:
a single fresh lookup's result. -/
def pure_block {R C : Type} (col : Collaborator R C) (dir : String)
    (x y z : Int) : String :=
  match pure_chunk col dir (chunk_coord x) (chunk_coord z) with
  | none => "minecraft:air"
  | some chunk =>
    match col.get_block chunk (block_offset x) y (block_offset z) with
    | some b => b
    | none => "minecraft:air"

/-- Cache consistency: every cached entry is exactly what the collaborator
returns for its key.  This holds in every reachable state because entries
are only inserted from successful collaborator calls. -/
def consistent {R C : Type} (col : Collaborator R C) (s : ReaderState R C) : Prop :=
  (∀ rx rz r, lookup s.region_cache (rx, rz) = some r →
      pure_region col s.world_directory rx rz = some r) ∧
  (∀ cx cz c, lookup s.chunk_cache (cx, cz) = some c →
      pure_chunk col s.world_directory cx cz = some c)

/-- One reader state extends another: the directory is unchanged and every
cached entry of the smaller state is still cached, with the same handle. -/
def extends_ {R C : Type} (s t : ReaderState R C) : Prop :=
  t.world_directory = s.world_directory ∧
  (∀ k r, lookup s.region_cache k = some r → lookup t.region_cache k = some r) ∧
  (∀ k c, lookup s.chunk_cache k = some c → lookup t.chunk_cache k = some c)

/-- Every cached chunk's owning region (floor division of the chunk
coordinates by 32) is itself cached. -/
def chunkRegionInv {R C : Type} (s : ReaderState R C) : Prop :=
  ∀ cx cz c, lookup s.chunk_cache (cx, cz) = some c →
    ∃ r, lookup s.region_cache (Int.fdiv cx 32, Int.fdiv cz 32) = some r

/-- The reader states reachable from a fresh reader by any sequence of the
five operations, with a fixed collaborator. -/
inductive Reachable {R C : Type} (col : Collaborator R C) (dir : String) :
    ReaderState R C → Prop
  | init : Reachable col dir (initState R C dir)
  | step_region (s : ReaderState R C) (rx rz : Int) :
      Reachable col dir s → Reachable col dir (_get_region col s rx rz).2
  | step_chunk (s : ReaderState R C) (cx cz : Int) :
      Reachable col dir s → Reachable col dir (_get_chunk col s cx cz).2
  | step_block (s : ReaderState R C) (x y z : Int) :
      Reachable col dir s → Reachable col dir (get_block col s x y z).2
  | step_scan (s : ReaderState R C) (x1 y1 z1 x2 y2 z2 : Int) :
      Reachable col dir s → Reachable col dir (scan_area col s x1 y1 z1 x2 y2 z2).2
  | step_multi (s : ReaderState R C) (coords : List (Int × Int × Int)) :
      Reachable col dir s → Reachable col dir (get_multiple_blocks col s coords).2

/-- A stub collaborator for which every decode succeeds and every voxel is
"minecraft:stone". -/
def colStone : Collaborator Unit Unit :=
  { from_file := fun _ => some (),
    get_chunk := fun _ _ _ => some (),
    get_block := fun _ _ _ _ => some "minecraft:stone" }

/-- A stub collaborator for which every region file load fails (an entirely
empty world). -/
def colEmpty : Collaborator Unit Unit :=
  { from_file := fun _ => none,
    get_chunk := fun _ _ _ => some (),
    get_block := fun _ _ _ _ => some "minecraft:stone" }

theorem extends_refl {R C : Type} (s : ReaderState R C) : extends_ s s :=
  ⟨rfl, fun _ _ h => h, fun _ _ h => h⟩

theorem extends_trans {R C : Type} {s t u : ReaderState R C}
    (h1 : extends_ s t) (h2 : extends_ t u) : extends_ s u :=
  ⟨h2.1.trans h1.1, fun k r h => h2.2.1 k r (h1.2.1 k r h),
   fun k c h => h2.2.2 k c (h1.2.2 k c h)⟩

theorem lookup_cons {κ β : Type} [DecidableEq κ] (p : κ × β)
    (d : List (κ × β)) (k : κ) :
    lookup (p :: d) k = if p.1 = k then some p.2 else lookup d k := rfl

theorem lookup_append {κ β : Type} [DecidableEq κ] (d1 d2 : List (κ × β)) (k : κ) :
    lookup (d1 ++ d2) k =
      match lookup d1 k with
      | some v => some v
      | none => lookup d2 k := by
  induction d1 with
  | nil => rfl
  | cons p rest ih =>
    by_cases hp : p.1 = k <;> simp [lookup_cons, hp, ih]

theorem lookup_map_overwrite_ne {κ β : Type} [DecidableEq κ]
    (d : List (κ × β)) (k k' : κ) (v : β) (hne : ¬k = k') :
    lookup (d.map (fun p => if p.1 = k then (k, v) else p)) k' = lookup d k' := by
  induction d with
  | nil => rfl
  | cons p rest ih =>
    rw [List.map_cons, lookup_cons, lookup_cons]
    by_cases hp : p.1 = k
    · rw [if_pos hp]
      rw [show ((k, v) : κ × β).1 = k from rfl, show ((k, v) : κ × β).2 = v from rfl]
      rw [if_neg hne, ih, if_neg (by rw [hp]; exact hne)]
    · rw [if_neg hp]
      by_cases hk : p.1 = k'
      · rw [if_pos hk, if_pos hk]
      · rw [if_neg hk, if_neg hk, ih]

theorem lookup_map_overwrite_eq {κ β : Type} [DecidableEq κ]
    {d : List (κ × β)} {k : κ} (v : β) {w : β} (h : lookup d k = some w) :
    lookup (d.map (fun p => if p.1 = k then (k, v) else p)) k = some v := by
  induction d with
  | nil => exact absurd h (by simp [lookup])
  | cons p rest ih =>
    rw [List.map_cons, lookup_cons]
    by_cases hp : p.1 = k
    · rw [if_pos hp, show ((k, v) : κ × β).1 = k from rfl, if_pos rfl]
    · rw [lookup_cons, if_neg hp] at h
      rw [if_neg hp, if_neg hp]
      exact ih h

/-- Characterization of Python dict assignment through lookup. -/
theorem lookup_insertD {κ β : Type} [DecidableEq κ]
    (d : List (κ × β)) (k : κ) (v : β) (k' : κ) :
    lookup (insertD d k v) k' = if k = k' then some v else lookup d k' := by
  unfold insertD
  cases hdk : lookup d k with
  | some w =>
    by_cases hkk : k = k'
    · subst hkk
      rw [if_pos rfl]
      exact lookup_map_overwrite_eq v hdk
    · rw [if_neg hkk, lookup_map_overwrite_ne d k k' v hkk]
  | none =>
    rw [lookup_append]
    cases hd : lookup d k' with
    | some w =>
      have hkk : ¬k = k' := by
        intro h
        rw [h, hd] at hdk
        exact absurd hdk (by simp)
      rw [if_neg hkk]
    | none =>
      rw [lookup_cons]
      rfl

/-- Prepending a fresh key does not disturb existing entries. -/
theorem lookup_cons_of_some {κ β : Type} [DecidableEq κ] {k0 : κ} {v0 : β}
    {d : List (κ × β)} {k : κ} {v : β} (hfresh : lookup d k0 = none)
    (h : lookup d k = some v) : lookup ((k0, v0) :: d) k = some v := by
  have hstep : lookup ((k0, v0) :: d) k = if k0 = k then some v0 else lookup d k := rfl
  rw [hstep]
  by_cases heq : k0 = k
  · subst heq
    rw [hfresh] at h
    exact absurd h (by simp)
  · rw [if_neg heq]
    exact h

/-- Structural facts about one `_get_region` call: the directory, the chunk
cache and the decode counter are untouched, the caches only grow, a returned
handle is cached afterwards, and on a consistent state the returned value is
the pure collaborator answer and consistency is preserved. -/
theorem get_region_spec {R C : Type} (col : Collaborator R C) (s : ReaderState R C)
    (rx rz : Int) :
    (_get_region col s rx rz).2.world_directory = s.world_directory ∧
    (_get_region col s rx rz).2.chunk_cache = s.chunk_cache ∧
    (_get_region col s rx rz).2.chunk_decodes = s.chunk_decodes ∧
    extends_ s (_get_region col s rx rz).2 ∧
    (∀ r, (_get_region col s rx rz).1 = some r →
      lookup (_get_region col s rx rz).2.region_cache (rx, rz) = some r) ∧
    (consistent col s →
      (_get_region col s rx rz).1 = pure_region col s.world_directory rx rz ∧
      consistent col (_get_region col s rx rz).2) := by
  cases hmiss : lookup s.region_cache (rx, rz) with
  | some region =>
    simp only [_get_region, hmiss]
    refine ⟨trivial, trivial, trivial, extends_refl s, ?_, ?_⟩
    · intro r h
      injection h with h
      subst h
      rfl
    · intro hcons
      exact ⟨(hcons.1 rx rz region hmiss).symm, hcons⟩
  | none =>
    cases hf : col.from_file (region_file s.world_directory rx rz) with
    | some region =>
      simp only [_get_region, hmiss, hf]
      refine ⟨trivial, trivial, trivial,
        ⟨rfl, fun k r h => lookup_cons_of_some hmiss h, fun k c h => h⟩, ?_, ?_⟩
      · intro r h
        injection h with h
        subst h
        simp [lookup_cons]
      · intro hcons
        refine ⟨by simp [pure_region, hf], ?_, ?_⟩
        · intro rx' rz' r' h'
          have hstep : lookup (((rx, rz), region) :: s.region_cache) (rx', rz') =
              if (rx, rz) = (rx', rz') then some region
              else lookup s.region_cache (rx', rz') := rfl
          rw [hstep] at h'
          by_cases he : ((rx, rz) : Int × Int) = (rx', rz')
          · injection he with he1 he2
            subst he1
            subst he2
            rw [if_pos rfl] at h'
            injection h' with h'
            subst h'
            simp [pure_region, hf]
          · rw [if_neg he] at h'
            exact hcons.1 rx' rz' r' h'
        · intro cx cz c h'
          exact hcons.2 cx cz c h'
    | none =>
      simp only [_get_region, hmiss, hf]
      refine ⟨trivial, trivial, trivial, ⟨rfl, fun k r h => h, fun k c h => h⟩,
        fun r h => absurd h (by simp), ?_⟩
      intro hcons
      refine ⟨by simp [pure_region, hf], ?_, ?_⟩
      · intro rx' rz' r' h'
        exact hcons.1 rx' rz' r' h'
      · intro cx cz c h'
        exact hcons.2 cx cz c h'

/-- A chunk-cache hit returns the cached handle and leaves the state
entirely unchanged. -/
theorem get_chunk_hit {R C : Type} (col : Collaborator R C) (s : ReaderState R C)
    {cx cz : Int} {c : C} (h : lookup s.chunk_cache (cx, cz) = some c) :
    _get_chunk col s cx cz = (some c, s) := by
  simp [_get_chunk, h]

/-- Structural facts about one `_get_chunk` call: directory unchanged, caches
only grow, a returned chunk is cached afterwards, an `Absent` result leaves
the chunk cache unchanged, the chunk-region invariant is preserved, a chunk
decode on a cache miss bumps the ghost decode counter exactly once, and on a
consistent state the value is the pure collaborator answer and consistency is
preserved. -/
theorem get_chunk_spec {R C : Type} (col : Collaborator R C) (s : ReaderState R C)
    (cx cz : Int) :
    (_get_chunk col s cx cz).2.world_directory = s.world_directory ∧
    extends_ s (_get_chunk col s cx cz).2 ∧
    (∀ c, (_get_chunk col s cx cz).1 = some c →
      lookup (_get_chunk col s cx cz).2.chunk_cache (cx, cz) = some c) ∧
    ((_get_chunk col s cx cz).1 = none →
      (_get_chunk col s cx cz).2.chunk_cache = s.chunk_cache) ∧
    (chunkRegionInv s → chunkRegionInv (_get_chunk col s cx cz).2) ∧
    (lookup s.chunk_cache (cx, cz) = none → (_get_chunk col s cx cz).1 ≠ none →
      (_get_chunk col s cx cz).2.chunk_decodes = s.chunk_decodes + 1) ∧
    (consistent col s →
      (_get_chunk col s cx cz).1 = pure_chunk col s.world_directory cx cz ∧
      consistent col (_get_chunk col s cx cz).2) := by
  cases hmiss : lookup s.chunk_cache (cx, cz) with
  | some c =>
    simp only [_get_chunk, hmiss]
    refine ⟨trivial, extends_refl s, ?_, fun h => absurd h (by simp), fun h => h,
      fun h => absurd h (by simp), ?_⟩
    · intro c' h
      injection h with h
      subst h
      rfl
    · intro hcons
      exact ⟨(hcons.2 cx cz c hmiss).symm, hcons⟩
  | none =>
    obtain ⟨hwd, hcc, hcd, hext, hcached, hconsR⟩ :=
      get_region_spec col s (Int.fdiv cx 32) (Int.fdiv cz 32)
    rcases hr : _get_region col s (Int.fdiv cx 32) (Int.fdiv cz 32) with ⟨o, s1⟩
    rw [hr] at hwd hcc hcd hext hcached hconsR
    cases o with
    | none =>
      simp only [_get_chunk, hmiss, hr]
      refine ⟨hwd, hext, fun c h => absurd h (by simp), fun _ => hcc, ?_, ?_, ?_⟩
      · intro hinv cx' cz' c' h'
        rw [hcc] at h'
        obtain ⟨r, hrr⟩ := hinv cx' cz' c' h'
        exact ⟨r, hext.2.1 _ r hrr⟩
      · intro _ hne
        exact absurd rfl hne
      · intro hcons
        obtain ⟨hval, hcons1⟩ := hconsR hcons
        refine ⟨?_, hcons1⟩
        simp [pure_chunk, ← hval]
    | some region =>
      have hfresh1 : lookup s1.chunk_cache (cx, cz) = none := by
        rw [hcc]; exact hmiss
      cases hgc : col.get_chunk region (Int.fmod cx 32) (Int.fmod cz 32) with
      | some chunk =>
        simp only [_get_chunk, hmiss, hr, hgc]
        refine ⟨hwd, ?_, ?_, fun h => absurd h (by simp), ?_, ?_, ?_⟩
        · refine extends_trans hext ⟨rfl, fun k r h => h, ?_⟩
          intro k c h
          exact lookup_cons_of_some hfresh1 h
        · intro c h
          injection h with h
          subst h
          simp [lookup_cons]
        · intro hinv cx' cz' c' h'
          have hstep : lookup (((cx, cz), chunk) :: s1.chunk_cache) (cx', cz') =
              if ((cx, cz) : Int × Int) = (cx', cz') then some chunk
              else lookup s1.chunk_cache (cx', cz') := rfl
          rw [hstep] at h'
          by_cases he : ((cx, cz) : Int × Int) = (cx', cz')
          · injection he with he1 he2
            subst he1
            subst he2
            exact ⟨region, hcached region rfl⟩
          · rw [if_neg he] at h'
            rw [hcc] at h'
            obtain ⟨r, hrr⟩ := hinv cx' cz' c' h'
            exact ⟨r, hext.2.1 _ r hrr⟩
        · intro _ _
          show s1.chunk_decodes + 1 = s.chunk_decodes + 1
          rw [hcd]
        · intro hcons
          obtain ⟨hval, hcons1⟩ := hconsR hcons
          have hpr : pure_region col s.world_directory (Int.fdiv cx 32) (Int.fdiv cz 32) =
              some region := hval.symm
          have hpc : pure_chunk col s.world_directory cx cz = some chunk := by
            simp [pure_chunk, hpr, hgc]
          refine ⟨hpc.symm, ?_, ?_⟩
          · intro rx' rz' r' h'
            exact hcons1.1 rx' rz' r' h'
          · intro cx' cz' c' h'
            have hstep : lookup (((cx, cz), chunk) :: s1.chunk_cache) (cx', cz') =
                if ((cx, cz) : Int × Int) = (cx', cz') then some chunk
                else lookup s1.chunk_cache (cx', cz') := rfl
            rw [hstep] at h'
            by_cases he : ((cx, cz) : Int × Int) = (cx', cz')
            · injection he with he1 he2
              subst he1
              subst he2
              rw [if_pos rfl] at h'
              injection h' with h'
              subst h'
              show pure_chunk col s1.world_directory cx cz = some chunk
              rw [hwd]
              exact hpc
            · rw [if_neg he] at h'
              exact hcons1.2 cx' cz' c' h'
      | none =>
        simp only [_get_chunk, hmiss, hr, hgc]
        refine ⟨hwd, ⟨hext.1, fun k r h => hext.2.1 k r h, fun k c h => hext.2.2 k c h⟩,
          fun c h => absurd h (by simp), fun _ => hcc, ?_, ?_, ?_⟩
        · intro hinv cx' cz' c' h'
          rw [hcc] at h'
          obtain ⟨r, hrr⟩ := hinv cx' cz' c' h'
          exact ⟨r, hext.2.1 _ r hrr⟩
        · intro _ hne
          exact absurd rfl hne
        · intro hcons
          obtain ⟨hval, hcons1⟩ := hconsR hcons
          have hpr : pure_region col s.world_directory (Int.fdiv cx 32) (Int.fdiv cz 32) =
              some region := hval.symm
          refine ⟨by simp [pure_chunk, hpr, hgc], ?_, ?_⟩
          · intro rx' rz' r' h'
            exact hcons1.1 rx' rz' r' h'
          · intro cx' cz' c' h'
            exact hcons1.2 cx' cz' c' h'

/-- `get_block` ends in exactly the state `_get_chunk` produced: the final
per-voxel decode never mutates the reader. -/
theorem get_block_state {R C : Type} (col : Collaborator R C) (s : ReaderState R C)
    (x y z : Int) :
    (get_block col s x y z).2 =
      (_get_chunk col s (chunk_coord x) (chunk_coord z)).2 := by
  rcases hc : _get_chunk col s (chunk_coord x) (chunk_coord z) with ⟨o, s1⟩
  cases o with
  | none => simp [get_block, hc]
  | some c =>
    cases hb : col.get_block c (block_offset x) y (block_offset z) with
    | none => simp [get_block, hc, hb]
    | some b => simp [get_block, hc, hb]

/-- Structural facts about one `get_block` call: directory unchanged, caches
only grow, the chunk-region invariant is preserved, and on a consistent
state the returned identifier is the pure collaborator answer and
consistency is preserved. -/
theorem get_block_spec {R C : Type} (col : Collaborator R C) (s : ReaderState R C)
    (x y z : Int) :
    (get_block col s x y z).2.world_directory = s.world_directory ∧
    extends_ s (get_block col s x y z).2 ∧
    (chunkRegionInv s → chunkRegionInv (get_block col s x y z).2) ∧
    (consistent col s →
      (get_block col s x y z).1 = pure_block col s.world_directory x y z ∧
      consistent col (get_block col s x y z).2) := by
  obtain ⟨hwd, hext, hcached, hnone, hinv, hcd, hcons⟩ :=
    get_chunk_spec col s (chunk_coord x) (chunk_coord z)
  rcases hc : _get_chunk col s (chunk_coord x) (chunk_coord z) with ⟨o, s1⟩
  rw [hc] at hwd hext hcached hnone hinv hcd hcons
  cases o with
  | none =>
    simp only [get_block, hc]
    refine ⟨hwd, hext, hinv, ?_⟩
    intro hcs
    obtain ⟨hval, hcons1⟩ := hcons hcs
    exact ⟨by simp [pure_block, ← hval], hcons1⟩
  | some chunk =>
    cases hb : col.get_block chunk (block_offset x) y (block_offset z) with
    | none =>
      simp only [get_block, hc, hb]
      refine ⟨hwd, hext, hinv, ?_⟩
      intro hcs
      obtain ⟨hval, hcons1⟩ := hcons hcs
      exact ⟨by simp [pure_block, ← hval, hb], hcons1⟩
    | some b =>
      simp only [get_block, hc, hb]
      refine ⟨hwd, hext, hinv, ?_⟩
      intro hcs
      obtain ⟨hval, hcons1⟩ := hcons hcs
      exact ⟨by simp [pure_block, ← hval, hb], hcons1⟩

/-- A fresh reader state is consistent with any collaborator. -/
theorem consistent_init {R C : Type} (col : Collaborator R C) (dir : String) :
    consistent col (initState R C dir) :=
  ⟨fun _ _ _ h => Option.noConfusion h, fun _ _ _ h => Option.noConfusion h⟩

/-- The `get_multiple_blocks` loop, characterized through `lookup`: every
visited coordinate maps to its pure `get_block` value, every other key is
untouched; consistency, the directory, cache entries and the chunk-region
invariant are preserved. -/
theorem multi_loop {R C : Type} (col : Collaborator R C) (dir : String) :
    ∀ (coords : List (Int × Int × Int)) (d : List ((Int × Int × Int) × String))
      (s : ReaderState R C), consistent col s → s.world_directory = dir →
      (∀ k, lookup (coords.foldl (multiStep col) (d, s)).1 k =
        if k ∈ coords then some (pure_block col dir k.1 k.2.1 k.2.2)
        else lookup d k) ∧
      consistent col (coords.foldl (multiStep col) (d, s)).2 ∧
      (coords.foldl (multiStep col) (d, s)).2.world_directory = dir ∧
      extends_ s (coords.foldl (multiStep col) (d, s)).2 ∧
      (chunkRegionInv s → chunkRegionInv (coords.foldl (multiStep col) (d, s)).2) := by
  intro coords
  induction coords with
  | nil =>
    intro d s hcs hdir
    refine ⟨?_, hcs, hdir, extends_refl s, fun h => h⟩
    intro k
    simp [List.foldl_nil]
  | cons c rest ih =>
    intro d s hcs hdir
    obtain ⟨hwd, hext, hinv, hval⟩ := get_block_spec col s c.1 c.2.1 c.2.2
    obtain ⟨hbval, hcons1⟩ := hval hcs
    rw [List.foldl_cons]
    have hstep : multiStep col (d, s) c =
        (insertD d c (get_block col s c.1 c.2.1 c.2.2).1,
         (get_block col s c.1 c.2.1 c.2.2).2) := rfl
    rw [hstep]
    obtain ⟨ihl, ihcs, ihdir, ihext, ihinv⟩ :=
      ih (insertD d c (get_block col s c.1 c.2.1 c.2.2).1)
        (get_block col s c.1 c.2.1 c.2.2).2 hcons1 (hwd.trans hdir)
    refine ⟨?_, ihcs, ihdir, extends_trans hext ihext, fun h => ihinv (hinv h)⟩
    intro k
    rw [ihl k]
    by_cases hmem : k ∈ rest
    · rw [if_pos hmem, if_pos (List.mem_cons_of_mem c hmem)]
    · rw [if_neg hmem, lookup_insertD]
      by_cases hkc : c = k
      · subst hkc
        rw [if_pos rfl, if_pos (List.mem_cons_self c rest)]
        rw [hbval, hdir]
      · rw [if_neg hkc]
        have : ¬k ∈ c :: rest := by
          intro hmem2
          rcases List.mem_cons.mp hmem2 with h | h
          · exact hkc h.symm
          · exact hmem h
        rw [if_neg this]

/-- The `scan_area` loop, characterized through `lookup`: a visited voxel is
kept iff its pure `get_block` value is not an air variant, every other key is
untouched; consistency, the directory, cache entries and the chunk-region
invariant are preserved. -/
theorem scan_loop {R C : Type} (col : Collaborator R C) (dir : String) :
    ∀ (L : List (Int × Int × Int)) (d : List ((Int × Int × Int) × String))
      (s : ReaderState R C), consistent col s → s.world_directory = dir →
      (∀ k, lookup (L.foldl (scanStep col) (d, s)).1 k =
        if k ∈ L ∧ ¬pure_block col dir k.1 k.2.1 k.2.2 ∈ air_blocks
        then some (pure_block col dir k.1 k.2.1 k.2.2)
        else lookup d k) ∧
      consistent col (L.foldl (scanStep col) (d, s)).2 ∧
      (L.foldl (scanStep col) (d, s)).2.world_directory = dir ∧
      extends_ s (L.foldl (scanStep col) (d, s)).2 ∧
      (chunkRegionInv s → chunkRegionInv (L.foldl (scanStep col) (d, s)).2) := by
  intro L
  induction L with
  | nil =>
    intro d s hcs hdir
    refine ⟨?_, hcs, hdir, extends_refl s, fun h => h⟩
    intro k
    simp [List.foldl_nil]
  | cons c rest ih =>
    intro d s hcs hdir
    obtain ⟨hwd, hext, hinv, hval⟩ := get_block_spec col s c.1 c.2.1 c.2.2
    obtain ⟨hbval, hcons1⟩ := hval hcs
    have hbval' : (get_block col s c.1 c.2.1 c.2.2).1 =
        pure_block col dir c.1 c.2.1 c.2.2 := by rw [hbval, hdir]
    rw [List.foldl_cons]
    have hstep : scanStep col (d, s) c =
        (if (get_block col s c.1 c.2.1 c.2.2).1 ∈ air_blocks then d
         else insertD d c (get_block col s c.1 c.2.1 c.2.2).1,
         (get_block col s c.1 c.2.1 c.2.2).2) := rfl
    rw [hstep, hbval']
    obtain ⟨ihl, ihcs, ihdir, ihext, ihinv⟩ :=
      ih (if pure_block col dir c.1 c.2.1 c.2.2 ∈ air_blocks then d
          else insertD d c (pure_block col dir c.1 c.2.1 c.2.2))
        (get_block col s c.1 c.2.1 c.2.2).2 hcons1 (hwd.trans hdir)
    refine ⟨?_, ihcs, ihdir, extends_trans hext ihext, fun h => ihinv (hinv h)⟩
    intro k
    rw [ihl k]
    by_cases hmem : k ∈ rest ∧ ¬pure_block col dir k.1 k.2.1 k.2.2 ∈ air_blocks
    · rw [if_pos hmem, if_pos ⟨List.mem_cons_of_mem c hmem.1, hmem.2⟩]
    · rw [if_neg hmem]
      by_cases hair : pure_block col dir c.1 c.2.1 c.2.2 ∈ air_blocks
      · rw [if_pos hair]
        by_cases hcl : k ∈ c :: rest ∧ ¬pure_block col dir k.1 k.2.1 k.2.2 ∈ air_blocks
        · exfalso
          rcases List.mem_cons.mp hcl.1 with h | h
          · subst h
            exact hcl.2 hair
          · exact hmem ⟨h, hcl.2⟩
        · rw [if_neg hcl]
      · rw [if_neg hair, lookup_insertD]
        by_cases hkc : c = k
        · subst hkc
          rw [if_pos rfl, if_pos ⟨List.mem_cons_self c rest, hair⟩]
        · rw [if_neg hkc]
          by_cases hcl : k ∈ c :: rest ∧ ¬pure_block col dir k.1 k.2.1 k.2.2 ∈ air_blocks
          · exfalso
            rcases List.mem_cons.mp hcl.1 with h | h
            · exact hkc h.symm
            · exact hmem ⟨h, hcl.2⟩
          · rw [if_neg hcl]

/-- The arithmetic right shift by 4 is floor division by 16. -/
theorem chunk_coord_eq_fdiv (x : Int) : chunk_coord x = Int.fdiv x 16 := by
  have h1 : chunk_coord x = x / ((2 ^ 4 : Nat) : Int) := Int.shiftRight_eq_div_pow x 4
  have h2 : ((2 ^ 4 : Nat) : Int) = 16 := by norm_num
  rw [h1, h2, Int.fdiv_eq_ediv x (by norm_num)]

theorem ldiff_fifteen (m : Nat) : Nat.ldiff 15 m = 15 - m % 16 := by
  have hx : Nat.ldiff 15 m = 15 ^^^ (m % 16) := by
    apply Nat.eq_of_testBit_eq
    intro i
    have h15 : (15 : Nat) = 2 ^ 4 - 1 := by norm_num
    rw [Nat.testBit_ldiff, Nat.testBit_xor, h15, Nat.testBit_two_pow_sub_one]
    have h16 : (16 : Nat) = 2 ^ 4 := by norm_num
    rw [h16, Nat.testBit_mod_two_pow]
    by_cases hi : i < 4 <;> cases hmi : m.testBit i <;> simp [hi, hmi]
  have hy : ∀ r, r < 16 → 15 ^^^ r = 15 - r := by decide
  rw [hx, hy (m % 16) (Nat.mod_lt m (by norm_num))]

/-- The two's-complement AND with 15 is the non-negative remainder mod 16. -/
theorem block_offset_eq_emod (x : Int) : block_offset x = Int.emod x 16 := by
  cases x with
  | ofNat m =>
    have h : block_offset (Int.ofNat m) = Int.ofNat (m &&& 15) := rfl
    have h2 : m &&& 15 = m % 16 := by
      have h3 := Nat.and_pow_two_sub_one_eq_mod m 4
      norm_num at h3
      exact h3
    rw [h, h2]
    show ((m % 16 : Nat) : Int) = ((m : Nat) : Int) % 16
    omega
  | negSucc m =>
    have h : block_offset (Int.negSucc m) = Int.ofNat (Nat.ldiff 15 m) := rfl
    rw [h, ldiff_fifteen m, Int.negSucc_eq]
    show ((15 - m % 16 : Nat) : Int) = -(((m : Nat) : Int) + 1) % 16
    have hlt : m % 16 < 16 := Nat.mod_lt m (by norm_num)
    omega

/-- Membership in the Python-style integer range. -/
theorem mem_intRange {a b i : Int} : i ∈ intRange a b ↔ a ≤ i ∧ i ≤ b := by
  unfold intRange
  constructor
  · intro h
    obtain ⟨j, hj, hji⟩ := List.mem_map.mp h
    rw [List.mem_range] at hj
    have hji2 : a + (j : Int) = i := hji
    omega
  · rintro ⟨h1, h2⟩
    refine List.mem_map.mpr ⟨(i - a).toNat, List.mem_range.mpr ?_, ?_⟩
    · omega
    · show a + ((i - a).toNat : Int) = i
      omega

/-- Membership in the `scan_area` visit list is exactly membership in the
normalized inclusive box. -/
theorem mem_visitList {x1 y1 z1 x2 y2 z2 : Int} {p : Int × Int × Int} :
    p ∈ visitList x1 y1 z1 x2 y2 z2 ↔
      min x1 x2 ≤ p.1 ∧ p.1 ≤ max x1 x2 ∧
      min y1 y2 ≤ p.2.1 ∧ p.2.1 ≤ max y1 y2 ∧
      min z1 z2 ≤ p.2.2 ∧ p.2.2 ≤ max z1 z2 := by
  rcases p with ⟨px, py, pz⟩
  unfold visitList
  simp only [List.mem_flatMap, List.mem_map]
  constructor
  · rintro ⟨x, hx, y, hy, z, hz, heq⟩
    injection heq with h1 h23
    injection h23 with h2 h3
    subst h1
    subst h2
    subst h3
    obtain ⟨ha, hb⟩ := mem_intRange.mp hx
    obtain ⟨hc, hd⟩ := mem_intRange.mp hy
    obtain ⟨he, hf⟩ := mem_intRange.mp hz
    exact ⟨ha, hb, hc, hd, he, hf⟩
  · rintro ⟨ha, hb, hc, hd, he, hf⟩
    exact ⟨px, mem_intRange.mpr ⟨ha, hb⟩, py, mem_intRange.mpr ⟨hc, hd⟩,
      pz, mem_intRange.mpr ⟨he, hf⟩, rfl⟩

/-- The `scan_area` loop only extends the caches and preserves the
chunk-region invariant, for any starting accumulator. -/
theorem scan_fold_pres {R C : Type} (col : Collaborator R C) :
    ∀ (L : List (Int × Int × Int))
      (a : List ((Int × Int × Int) × String) × ReaderState R C),
      extends_ a.2 ((L.foldl (scanStep col) a).2) ∧
      (chunkRegionInv a.2 → chunkRegionInv ((L.foldl (scanStep col) a).2)) := by
  intro L
  induction L with
  | nil => intro a; exact ⟨extends_refl a.2, fun h => h⟩
  | cons c rest ih =>
    intro a
    obtain ⟨_, hext, hinv, _⟩ := get_block_spec col a.2 c.1 c.2.1 c.2.2
    obtain ⟨ihext, ihinv⟩ := ih (scanStep col a c)
    rw [List.foldl_cons]
    have h2 : (scanStep col a c).2 = (get_block col a.2 c.1 c.2.1 c.2.2).2 := rfl
    rw [h2] at ihext ihinv
    exact ⟨extends_trans hext ihext, fun h => ihinv (hinv h)⟩

/-- The `get_multiple_blocks` loop only extends the caches and preserves the
chunk-region invariant, for any starting accumulator. -/
theorem multi_fold_pres {R C : Type} (col : Collaborator R C) :
    ∀ (L : List (Int × Int × Int))
      (a : List ((Int × Int × Int) × String) × ReaderState R C),
      extends_ a.2 ((L.foldl (multiStep col) a).2) ∧
      (chunkRegionInv a.2 → chunkRegionInv ((L.foldl (multiStep col) a).2)) := by
  intro L
  induction L with
  | nil => intro a; exact ⟨extends_refl a.2, fun h => h⟩
  | cons c rest ih =>
    intro a
    obtain ⟨_, hext, hinv, _⟩ := get_block_spec col a.2 c.1 c.2.1 c.2.2
    obtain ⟨ihext, ihinv⟩ := ih (multiStep col a c)
    rw [List.foldl_cons]
    have h2 : (multiStep col a c).2 = (get_block col a.2 c.1 c.2.1 c.2.2).2 := rfl
    rw [h2] at ihext ihinv
    exact ⟨extends_trans hext ihext, fun h => ihinv (hinv h)⟩

/-- C1: for every world coordinate and every collaborator behavior,
`get_block` returns an identifier string (it is total by construction);
whenever the chunk cannot be resolved, or the per-voxel decode raises, the
result is the namespaced empty-space token "minecraft:air"; in every other
case it is exactly the identifier the collaborator decoded. -/
theorem C1_get_block_total_default {R C : Type} (col : Collaborator R C)
    (s : ReaderState R C) (x y z : Int) :
    ((_get_chunk col s (chunk_coord x) (chunk_coord z)).1 = none →
      (get_block col s x y z).1 = "minecraft:air") ∧
    (∀ c, (_get_chunk col s (chunk_coord x) (chunk_coord z)).1 = some c →
      col.get_block c (block_offset x) y (block_offset z) = none →
      (get_block col s x y z).1 = "minecraft:air") ∧
    ((get_block col s x y z).1 = "minecraft:air" ∨
      ∃ c, (_get_chunk col s (chunk_coord x) (chunk_coord z)).1 = some c ∧
        col.get_block c (block_offset x) y (block_offset z) =
          some (get_block col s x y z).1) := by
  rcases hc : _get_chunk col s (chunk_coord x) (chunk_coord z) with ⟨o, s1⟩
  cases o with
  | none =>
    simp only [get_block, hc]
    exact ⟨fun _ => trivial, fun c h => absurd h (by simp), Or.inl trivial⟩
  | some chunk =>
    cases hb : col.get_block chunk (block_offset x) y (block_offset z) with
    | none =>
      simp only [get_block, hc, hb]
      refine ⟨fun h => absurd h (by simp), fun c h => ?_, Or.inl trivial⟩
      intro _
      trivial
    | some b =>
      simp only [get_block, hc, hb]
      refine ⟨fun h => absurd h (by simp), fun c h h2 => ?_, ?_⟩
      · injection h with h
        subst h
        rw [hb] at h2
        exact absurd h2 (by simp)
      · exact Or.inr ⟨chunk, rfl, hb⟩

/-- C1 witness: with a collaborator whose region files are all missing, the
chunk is unresolvable and `get_block 0 0 0` returns "minecraft:air". -/
theorem C1_witness :
    (_get_chunk colEmpty (initState Unit Unit "w") (chunk_coord 0) (chunk_coord 0)).1
        = none ∧
    (get_block colEmpty (initState Unit Unit "w") 0 0 0).1 = "minecraft:air" :=
  ⟨rfl, (C1_get_block_total_default colEmpty (initState Unit Unit "w") 0 0 0).1 rfl⟩

/-- C2: decomposing a signed world coordinate into chunk coordinate `x >> 4`
and local offset `x & 15` and recomposing as `(x >> 4) * 16 + (x & 15)`
reconstructs `x` exactly, and the shift equals floor division by 16 while
the mask equals the non-negative remainder modulo 16. -/
theorem C2_decompose_roundtrip (x : Int) :
    chunk_coord x * 16 + block_offset x = x ∧
    chunk_coord x = Int.fdiv x 16 ∧
    block_offset x = Int.emod x 16 := by
  refine ⟨?_, chunk_coord_eq_fdiv x, block_offset_eq_emod x⟩
  rw [chunk_coord_eq_fdiv x, block_offset_eq_emod x, Int.fdiv_eq_ediv x (by norm_num)]
  show x / 16 * 16 + x % 16 = x
  omega

/-- C3: starting from a fresh reader, if the first `get_block` call resolves
its chunk, the ghost decode counter is 1, the chunk is cached, and a second
`get_block` for any coordinate of the same chunk is answered from the chunk
cache with the originally decoded handle, leaving the state (and hence the
decode counter) unchanged — exactly one chunk decode in total. -/
theorem C3_same_chunk_single_decode {R C : Type} (col : Collaborator R C)
    (dir : String) (x1 y1 z1 x2 y2 z2 : Int)
    (hx : chunk_coord x1 = chunk_coord x2) (hz : chunk_coord z1 = chunk_coord z2)
    (hres : (_get_chunk col (initState R C dir) (chunk_coord x1) (chunk_coord z1)).1
      ≠ none) :
    (get_block col (initState R C dir) x1 y1 z1).2.chunk_decodes = 1 ∧
    ∃ c, lookup (get_block col (initState R C dir) x1 y1 z1).2.chunk_cache
          (chunk_coord x2, chunk_coord z2) = some c ∧
      _get_chunk col (get_block col (initState R C dir) x1 y1 z1).2
          (chunk_coord x2) (chunk_coord z2) =
        (some c, (get_block col (initState R C dir) x1 y1 z1).2) ∧
      (get_block col (get_block col (initState R C dir) x1 y1 z1).2 x2 y2 z2).2 =
        (get_block col (initState R C dir) x1 y1 z1).2 := by
  obtain ⟨hwd, hext, hcached, hnone, hinv, hcd, hcons⟩ :=
    get_chunk_spec col (initState R C dir) (chunk_coord x1) (chunk_coord z1)
  have hstate : (get_block col (initState R C dir) x1 y1 z1).2 =
      (_get_chunk col (initState R C dir) (chunk_coord x1) (chunk_coord z1)).2 :=
    get_block_state col (initState R C dir) x1 y1 z1
  obtain ⟨c, hc⟩ : ∃ c,
      (_get_chunk col (initState R C dir) (chunk_coord x1) (chunk_coord z1)).1
        = some c := by
    cases h : (_get_chunk col (initState R C dir) (chunk_coord x1)
        (chunk_coord z1)).1 with
    | none => exact absurd h hres
    | some c => exact ⟨c, rfl⟩
  have hdec : (_get_chunk col (initState R C dir) (chunk_coord x1)
      (chunk_coord z1)).2.chunk_decodes = 1 :=
    hcd rfl (by rw [hc]; simp)
  have hcach : lookup (get_block col (initState R C dir) x1 y1 z1).2.chunk_cache
      (chunk_coord x2, chunk_coord z2) = some c := by
    rw [hstate, ← hx, ← hz]
    exact hcached c hc
  have hhit := get_chunk_hit col ((get_block col (initState R C dir) x1 y1 z1).2) hcach
  refine ⟨by rw [hstate]; exact hdec, c, hcach, hhit, ?_⟩
  rw [get_block_state col ((get_block col (initState R C dir) x1 y1 z1).2) x2 y2 z2,
    hhit]

/-- C3 witness: a concrete run with the all-stone collaborator, coordinates
(0, 64, 0) and (1, 70, 1) in the same chunk. -/
theorem C3_witness :
    chunk_coord 0 = chunk_coord 1 ∧
    (_get_chunk colStone (initState Unit Unit "w") (chunk_coord 0) (chunk_coord 0)).1
      ≠ none ∧
    ((get_block colStone (initState Unit Unit "w") 0 64 0).2.chunk_decodes = 1 ∧
      ∃ c, lookup (get_block colStone (initState Unit Unit "w") 0 64 0).2.chunk_cache
            (chunk_coord 1, chunk_coord 1) = some c ∧
        _get_chunk colStone (get_block colStone (initState Unit Unit "w") 0 64 0).2
            (chunk_coord 1) (chunk_coord 1) =
          (some c, (get_block colStone (initState Unit Unit "w") 0 64 0).2) ∧
        (get_block colStone
            (get_block colStone (initState Unit Unit "w") 0 64 0).2 1 70 1).2 =
          (get_block colStone (initState Unit Unit "w") 0 64 0).2) :=
  ⟨by decide, by decide,
    C3_same_chunk_single_decode colStone "w" 0 64 0 1 70 1 (by decide) (by decide)
      (by decide)⟩

/-- C4: scanning from a fresh reader, a voxel is a key of the result iff it
lies in the normalized inclusive box and its identifier is not one of the six
air tokens, in which case it maps to that identifier; no key lies outside the
box; the degenerate single-voxel scan has at most one entry and is empty when
that voxel is any air variant. -/
theorem C4_scan_area_membership {R C : Type} (col : Collaborator R C) (dir : String)
    (x1 y1 z1 x2 y2 z2 : Int) :
    (∀ x y z,
      lookup (scan_area col (initState R C dir) x1 y1 z1 x2 y2 z2).1 (x, y, z) =
        if (min x1 x2 ≤ x ∧ x ≤ max x1 x2 ∧ min y1 y2 ≤ y ∧ y ≤ max y1 y2 ∧
            min z1 z2 ≤ z ∧ z ≤ max z1 z2) ∧
            ¬pure_block col dir x y z ∈ air_blocks
        then some (pure_block col dir x y z) else none) ∧
    (scan_area col (initState R C dir) 0 0 0 0 0 0).1.length ≤ 1 ∧
    (pure_block col dir 0 0 0 ∈ air_blocks →
      (scan_area col (initState R C dir) 0 0 0 0 0 0).1 = []) := by
  have h1 : (scan_area col (initState R C dir) 0 0 0 0 0 0).1 =
      if pure_block col dir 0 0 0 ∈ air_blocks then []
      else [((0, 0, 0), pure_block col dir 0 0 0)] := by
    have hbval : (get_block col (initState R C dir) 0 0 0).1 =
        pure_block col dir 0 0 0 :=
      ((get_block_spec col (initState R C dir) 0 0 0).2.2.2
        (consistent_init col dir)).1
    have hv : visitList 0 0 0 0 0 0 = [(0, 0, 0)] := by decide
    have hsc : scan_area col (initState R C dir) 0 0 0 0 0 0 =
        scanStep col ([], initState R C dir) (0, 0, 0) := by
      show (visitList 0 0 0 0 0 0).foldl (scanStep col) ([], initState R C dir) = _
      rw [hv, List.foldl_cons, List.foldl_nil]
    rw [hsc]
    show (if (get_block col (initState R C dir) 0 0 0).1 ∈ air_blocks then []
        else insertD [] (0, 0, 0) (get_block col (initState R C dir) 0 0 0).1) = _
    rw [hbval]
    by_cases hair : pure_block col dir 0 0 0 ∈ air_blocks
    · rw [if_pos hair, if_pos hair]
    · rw [if_neg hair, if_neg hair]
      rfl
  refine ⟨?_, ?_, ?_⟩
  · intro x y z
    obtain ⟨hl, -, -, -, -⟩ := scan_loop col dir (visitList x1 y1 z1 x2 y2 z2)
      [] (initState R C dir) (consistent_init col dir) rfl
    have h0 : lookup (scan_area col (initState R C dir) x1 y1 z1 x2 y2 z2).1
        (x, y, z) =
        if (x, y, z) ∈ visitList x1 y1 z1 x2 y2 z2 ∧
            ¬pure_block col dir x y z ∈ air_blocks
        then some (pure_block col dir x y z)
        else lookup ([] : List ((Int × Int × Int) × String)) (x, y, z) := hl (x, y, z)
    rw [h0]
    have hiff : ((x, y, z) ∈ visitList x1 y1 z1 x2 y2 z2 ∧
        ¬pure_block col dir x y z ∈ air_blocks) ↔
        ((min x1 x2 ≤ x ∧ x ≤ max x1 x2 ∧ min y1 y2 ≤ y ∧ y ≤ max y1 y2 ∧
          min z1 z2 ≤ z ∧ z ≤ max z1 z2) ∧
          ¬pure_block col dir x y z ∈ air_blocks) := by
      constructor
      · rintro ⟨hm, hn⟩
        exact ⟨mem_visitList.mp hm, hn⟩
      · rintro ⟨hm, hn⟩
        exact ⟨mem_visitList.mpr hm, hn⟩
    exact if_congr hiff rfl rfl
  · rw [h1]
    by_cases hair : pure_block col dir 0 0 0 ∈ air_blocks <;> simp [hair]
  · intro hair
    rw [h1, if_pos hair]

/-- C4 witness: with the empty-world collaborator, the single voxel of the
degenerate box reads "minecraft:air", so the scan result is empty. -/
theorem C4_witness :
    pure_block colEmpty "w" 0 0 0 ∈ air_blocks ∧
    (scan_area colEmpty (initState Unit Unit "w") 0 0 0 0 0 0).1 = [] :=
  ⟨by decide, (C4_scan_area_membership colEmpty "w" 0 0 0 0 0 0).2.2 (by decide)⟩

/-- C5: `scan_area` depends only on the normalized min/max box: swapping the
two corner arguments yields the identical result (and final state). -/
theorem C5_corner_order {R C : Type} (col : Collaborator R C) (s : ReaderState R C)
    (x1 y1 z1 x2 y2 z2 : Int) :
    scan_area col s x1 y1 z1 x2 y2 z2 = scan_area col s x2 y2 z2 x1 y1 z1 := by
  unfold scan_area visitList
  rw [min_comm x1 x2, max_comm x1 x2, min_comm y1 y2, max_comm y1 y2,
    min_comm z1 z2, max_comm z1 z2]

/-- C6: `get_multiple_blocks` from a fresh reader keys its result by exactly
the set of input coordinates, each mapped to its `get_block` identifier with
no emptiness filtering; duplicate inputs collapse to one entry whose value is
a single `get_block` call's result. -/
theorem C6_get_multiple_blocks_keys {R C : Type} (col : Collaborator R C)
    (dir : String) (coordinates : List (Int × Int × Int)) :
    (∀ k, lookup (get_multiple_blocks col (initState R C dir) coordinates).1 k =
      if k ∈ coordinates then some (pure_block col dir k.1 k.2.1 k.2.2)
      else none) ∧
    (get_multiple_blocks col (initState R C dir) [(0, 0, 0), (0, 0, 0)]).1 =
      [((0, 0, 0), (get_block col (initState R C dir) 0 0 0).1)] := by
  constructor
  · intro k
    obtain ⟨hl, -, -, -, -⟩ := multi_loop col dir coordinates [] (initState R C dir)
      (consistent_init col dir) rfl
    have h0 : lookup (get_multiple_blocks col (initState R C dir) coordinates).1 k =
        if k ∈ coordinates then some (pure_block col dir k.1 k.2.1 k.2.2)
        else lookup ([] : List ((Int × Int × Int) × String)) k := hl k
    rw [h0]
    by_cases hm : k ∈ coordinates
    · rw [if_pos hm, if_pos hm]
    · rw [if_neg hm, if_neg hm]
      rfl
  · obtain ⟨hwd1, -, -, hv1⟩ := get_block_spec col (initState R C dir) 0 0 0
    obtain ⟨hval1, hcons1⟩ := hv1 (consistent_init col dir)
    obtain ⟨hwd2, -, -, hv2⟩ :=
      get_block_spec col (get_block col (initState R C dir) 0 0 0).2 0 0 0
    obtain ⟨hval2, -⟩ := hv2 hcons1
    have heq : (get_block col (get_block col (initState R C dir) 0 0 0).2 0 0 0).1 =
        (get_block col (initState R C dir) 0 0 0).1 := by
      rw [hval2, hval1, hwd1]
    show ((([(0, 0, 0), (0, 0, 0)] : List (Int × Int × Int)).foldl (multiStep col)
        ([], initState R C dir)).1) = _
    rw [List.foldl_cons, List.foldl_cons, List.foldl_nil]
    have hstep1 : multiStep col ([], initState R C dir) (0, 0, 0) =
        ([((0, 0, 0), (get_block col (initState R C dir) 0 0 0).1)],
         (get_block col (initState R C dir) 0 0 0).2) := rfl
    rw [hstep1]
    have hstep2 : multiStep col
        ([((0, 0, 0), (get_block col (initState R C dir) 0 0 0).1)],
         (get_block col (initState R C dir) 0 0 0).2) (0, 0, 0) =
        ([((0, 0, 0),
            (get_block col (get_block col (initState R C dir) 0 0 0).2 0 0 0).1)],
         (get_block col (get_block col (initState R C dir) 0 0 0).2 0 0 0).2) := rfl
    rw [hstep2, heq]

/-- C7: when chunk resolution returns `Absent`, no entry is added to the
chunk cache for that chunk coordinate — the chunk cache is unchanged and the
coordinate is still a cache miss, so every subsequent resolution of the same
chunk takes the miss path (which re-runs region resolution) rather than
being answered from a cached negative result. -/
theorem C7_no_negative_chunk_caching {R C : Type} (col : Collaborator R C)
    (s : ReaderState R C) (cx cz : Int)
    (h : (_get_chunk col s cx cz).1 = none) :
    (_get_chunk col s cx cz).2.chunk_cache = s.chunk_cache ∧
    lookup (_get_chunk col s cx cz).2.chunk_cache (cx, cz) = none := by
  obtain ⟨-, -, -, hnone, -, -, -⟩ := get_chunk_spec col s cx cz
  have hcc := hnone h
  refine ⟨hcc, ?_⟩
  rw [hcc]
  cases hm : lookup s.chunk_cache (cx, cz) with
  | none => rfl
  | some c =>
    rw [get_chunk_hit col s hm] at h
    exact absurd h (by simp)

/-- C7 witness: the empty-world collaborator at a fresh reader. -/
theorem C7_witness :
    (_get_chunk colEmpty (initState Unit Unit "w") 0 0).1 = none ∧
    ((_get_chunk colEmpty (initState Unit Unit "w") 0 0).2.chunk_cache =
        (initState Unit Unit "w").chunk_cache ∧
      lookup (_get_chunk colEmpty (initState Unit Unit "w") 0 0).2.chunk_cache
        (0, 0) = none) :=
  ⟨rfl, C7_no_negative_chunk_caching colEmpty (initState Unit Unit "w") 0 0 rfl⟩

/-- C8: within one reader session, a cache entry, once inserted, is never
removed, replaced or re-fetched by any of the five operations: every later
lookup of the same key still returns the originally cached handle. -/
theorem C8_cache_entries_permanent {R C : Type} (col : Collaborator R C)
    (s : ReaderState R C) :
    (∀ rx rz k (r : R), lookup s.region_cache k = some r →
      lookup (_get_region col s rx rz).2.region_cache k = some r) ∧
    (∀ rx rz k (c : C), lookup s.chunk_cache k = some c →
      lookup (_get_region col s rx rz).2.chunk_cache k = some c) ∧
    (∀ cx cz k (r : R), lookup s.region_cache k = some r →
      lookup (_get_chunk col s cx cz).2.region_cache k = some r) ∧
    (∀ cx cz k (c : C), lookup s.chunk_cache k = some c →
      lookup (_get_chunk col s cx cz).2.chunk_cache k = some c) ∧
    (∀ x y z k (r : R), lookup s.region_cache k = some r →
      lookup (get_block col s x y z).2.region_cache k = some r) ∧
    (∀ x y z k (c : C), lookup s.chunk_cache k = some c →
      lookup (get_block col s x y z).2.chunk_cache k = some c) ∧
    (∀ x1 y1 z1 x2 y2 z2 k (r : R), lookup s.region_cache k = some r →
      lookup (scan_area col s x1 y1 z1 x2 y2 z2).2.region_cache k = some r) ∧
    (∀ x1 y1 z1 x2 y2 z2 k (c : C), lookup s.chunk_cache k = some c →
      lookup (scan_area col s x1 y1 z1 x2 y2 z2).2.chunk_cache k = some c) ∧
    (∀ coords k (r : R), lookup s.region_cache k = some r →
      lookup (get_multiple_blocks col s coords).2.region_cache k = some r) ∧
    (∀ coords k (c : C), lookup s.chunk_cache k = some c →
      lookup (get_multiple_blocks col s coords).2.chunk_cache k = some c) :=
  ⟨fun rx rz => ((get_region_spec col s rx rz).2.2.2.1).2.1,
   fun rx rz => ((get_region_spec col s rx rz).2.2.2.1).2.2,
   fun cx cz => ((get_chunk_spec col s cx cz).2.1).2.1,
   fun cx cz => ((get_chunk_spec col s cx cz).2.1).2.2,
   fun x y z => ((get_block_spec col s x y z).2.1).2.1,
   fun x y z => ((get_block_spec col s x y z).2.1).2.2,
   fun x1 y1 z1 x2 y2 z2 =>
     ((scan_fold_pres col (visitList x1 y1 z1 x2 y2 z2) ([], s)).1).2.1,
   fun x1 y1 z1 x2 y2 z2 =>
     ((scan_fold_pres col (visitList x1 y1 z1 x2 y2 z2) ([], s)).1).2.2,
   fun coords => ((multi_fold_pres col coords ([], s)).1).2.1,
   fun coords => ((multi_fold_pres col coords ([], s)).1).2.2⟩

/-- C8 witness: after one `get_block` caches region (0,0) with the all-stone
collaborator, a later `get_block` still finds the original handle. -/
theorem C8_witness :
    lookup (get_block colStone (initState Unit Unit "w") 0 0 0).2.region_cache
      (0, 0) = some () ∧
    lookup (get_block colStone
        (get_block colStone (initState Unit Unit "w") 0 0 0).2 5 6 7).2.region_cache
      (0, 0) = some () :=
  ⟨by decide,
    (C8_cache_entries_permanent colStone
        (get_block colStone (initState Unit Unit "w") 0 0 0).2).2.2.2.2.1
      5 6 7 (0, 0) () (by decide)⟩

/-- C9: in every state reachable from a fresh reader, every cached chunk's
owning region (floor division by 32 of the chunk coordinates) is cached: a
chunk can only enter the cache through a successful region load. -/
theorem C9_chunk_cached_implies_region_cached {R C : Type} (col : Collaborator R C)
    (dir : String) (s : ReaderState R C) (h : Reachable col dir s) :
    ∀ cx cz (c : C), lookup s.chunk_cache (cx, cz) = some c →
      ∃ r, lookup s.region_cache (Int.fdiv cx 32, Int.fdiv cz 32) = some r := by
  induction h with
  | init => exact fun cx cz c hc => Option.noConfusion hc
  | step_region s1 rx rz hreach ih =>
    intro cx cz c hc
    obtain ⟨-, hcc, -, hext, -, -⟩ := get_region_spec col s1 rx rz
    rw [hcc] at hc
    obtain ⟨r, hr⟩ := ih cx cz c hc
    exact ⟨r, hext.2.1 _ r hr⟩
  | step_chunk s1 cx' cz' hreach ih =>
    exact (get_chunk_spec col s1 cx' cz').2.2.2.2.1 ih
  | step_block s1 x y z hreach ih =>
    exact (get_block_spec col s1 x y z).2.2.1 ih
  | step_scan s1 x1 y1 z1 x2 y2 z2 hreach ih =>
    exact (scan_fold_pres col (visitList x1 y1 z1 x2 y2 z2) ([], s1)).2 ih
  | step_multi s1 coords hreach ih =>
    exact (multi_fold_pres col coords ([], s1)).2 ih

/-- C9 witness: after one successful `get_block`, chunk (0,0) is cached and
the theorem yields its cached owning region (0,0). -/
theorem C9_witness :
    ∃ r, lookup (get_block colStone (initState Unit Unit "w") 0 0 0).2.region_cache
      (Int.fdiv 0 32, Int.fdiv 0 32) = some r :=
  C9_chunk_cached_implies_region_cached colStone "w"
    (get_block colStone (initState Unit Unit "w") 0 0 0).2
    (Reachable.step_block (initState Unit Unit "w") 0 0 0 Reachable.init)
    0 0 () (by decide)

/-- C10: a failed region load is not cached: from a miss, `_get_region`
returns `Absent`, leaves the region cache unchanged, and bumps the ghost
file-load counter; a second resolution of the same coordinates retries the
file load (the counter increments again) instead of returning a remembered
failure. -/
theorem C10_no_negative_region_caching {R C : Type} (col : Collaborator R C)
    (s : ReaderState R C) (rx rz : Int)
    (hmiss : lookup s.region_cache (rx, rz) = none)
    (hfail : col.from_file (region_file s.world_directory rx rz) = none) :
    (_get_region col s rx rz).1 = none ∧
    (_get_region col s rx rz).2.region_cache = s.region_cache ∧
    (_get_region col s rx rz).2.region_loads = s.region_loads + 1 ∧
    (_get_region col (_get_region col s rx rz).2 rx rz).1 = none ∧
    (_get_region col (_get_region col s rx rz).2 rx rz).2.region_loads =
      s.region_loads + 2 := by
  have h1 : _get_region col s rx rz =
      (none, { s with region_loads := s.region_loads + 1 }) := by
    simp only [_get_region, hmiss, hfail]
  have h2 : _get_region col { s with region_loads := s.region_loads + 1 } rx rz =
      (none, { s with region_loads := s.region_loads + 1 + 1 }) := by
    simp only [_get_region, hmiss, hfail]
  rw [h1]
  refine ⟨rfl, rfl, rfl, ?_, ?_⟩
  · show (_get_region col { s with region_loads := s.region_loads + 1 } rx rz).1 =
      none
    rw [h2]
  · show (_get_region col
        { s with region_loads := s.region_loads + 1 } rx rz).2.region_loads =
      s.region_loads + 2
    rw [h2]

/-- C10 witness: the empty-world collaborator at a fresh reader. -/
theorem C10_witness :
    lookup (initState Unit Unit "w").region_cache (0, 0) = none ∧
    colEmpty.from_file
      (region_file (initState Unit Unit "w").world_directory 0 0) = none ∧
    ((_get_region colEmpty (initState Unit Unit "w") 0 0).1 = none ∧
      (_get_region colEmpty (initState Unit Unit "w") 0 0).2.region_cache =
        (initState Unit Unit "w").region_cache ∧
      (_get_region colEmpty (initState Unit Unit "w") 0 0).2.region_loads =
        (initState Unit Unit "w").region_loads + 1 ∧
      (_get_region colEmpty
          (_get_region colEmpty (initState Unit Unit "w") 0 0).2 0 0).1 = none ∧
      (_get_region colEmpty
          (_get_region colEmpty (initState Unit Unit "w") 0 0).2 0 0).2.region_loads =
        (initState Unit Unit "w").region_loads + 2) :=
  ⟨rfl, rfl,
    C10_no_negative_region_caching colEmpty (initState Unit Unit "w") 0 0 rfl rfl⟩

end MinecraftReader
